import Mathlib

/-!
Verification of the options validator of the `random-streams-arcsine` package
(`src/lib/validate.js`) and of the documented PRNG state-sharing semantics
(`src/README.md`, Notes section).

JavaScript values are shallowly embedded: numbers are modelled as rationals,
with separate constructors for `NaN` and the two infinities; plain objects are
association lists of own properties; other objects (arrays, functions) get
their own constructors so that the plain-object test is meaningful.
-/

namespace RandomStreamsArcsine

/-- Shallow embedding of the JavaScript values the validator can see. -/
inductive JsVal where
  | undef : JsVal
  | null : JsVal
  | bool (b : Bool) : JsVal
  | num (q : ℚ) : JsVal
  | nan : JsVal
  | inf : JsVal
  | neginf : JsVal
  | str (s : String) : JsVal
  | plainObj (fields : List (String × JsVal)) : JsVal
  | arr (len : Nat) : JsVal
  | fn (id : Nat) : JsVal

/-- An object is a list of own properties (JavaScript objects have no
duplicate keys; lookups read the first binding). -/
abbrev ObjMap := List (String × JsVal)

/-- Read an own property. -/
def getProp : ObjMap → String → Option JsVal
  | [], _ => none
  | (k0, v) :: t, k => if k0 = k then some v else getProp t k

/-- `hasOwnProp` from `@stdlib/assert-has-own-property`. -/
def hasOwnProp (o : ObjMap) (k : String) : Bool :=
  (getProp o k).isSome

/-- Property assignment `o[k] = v`: overwrite the existing binding or append. -/
def setProp : ObjMap → String → JsVal → ObjMap
  | [], k, v => [(k, v)]
  | (k0, v0) :: t, k, v =>
      if k0 = k then (k, v) :: t else (k0, v0) :: setProp t k v

/-- `isString.isPrimitive` from `@stdlib/assert-is-string`. -/
def isString : JsVal → Bool
  | .str _ => true
  | _ => false

/-- `isBoolean.isPrimitive` from `@stdlib/assert-is-boolean`. -/
def isBoolean : JsVal → Bool
  | .bool _ => true
  | _ => false

/-- The JavaScript `null` test used by the `encoding` check. -/
def isNull : JsVal → Bool
  | .null => true
  | _ => false

/-- `isNonNegative.isPrimitive` from `@stdlib/assert-is-nonnegative-number`:
a primitive number with `value >= 0` (so `Infinity` passes, `NaN` fails). -/
def isNonNegative : JsVal → Bool
  | .num q => decide (0 ≤ q.num)
  | .inf => true
  | _ => false

/-- `isNonNegativeInteger.isPrimitive` from
`@stdlib/assert-is-nonnegative-integer`: a finite primitive number that is a
non-negative integer. -/
def isNonNegativeInteger : JsVal → Bool
  | .num q => decide (q.den = 1 ∧ 0 ≤ q.num)
  | _ => false

/-- `isPositiveInteger.isPrimitive` from
`@stdlib/assert-is-positive-integer`. -/
def isPositiveInteger : JsVal → Bool
  | .num q => decide (q.den = 1 ∧ 0 < q.num)
  | _ => false

/-- `isObject` from `@stdlib/assert-is-plain-object`. -/
def isPlainObject : JsVal → Bool
  | .plainObj _ => true
  | _ => false

/-- A `TypeError` produced through `format` from
`@stdlib/error-tools-fmtprodmsg`: the production error code, the offending
field name when the error names one, and the offending value. -/
inductive JsError where
  | typeError (code : String) (field : Option String) (value : JsVal)

/-- One validated field: its key, its type predicate, and the production
error code used when the check fails. -/
structure FieldCheck where
  key : String
  pred : JsVal → Bool
  code : String

/-- The six checked fields of `validate`, in source order
(`src/lib/validate.js`, lines 67-102). -/
def checks : List FieldCheck :=
  [ ⟨"sep", isString, "0qh2W,Gh"⟩,
    ⟨"objectMode", isBoolean, "0qh2o,GE"⟩,
    ⟨"encoding", fun v => isString v || isNull v, "0qh7n,Ny"⟩,
    ⟨"highWaterMark", isNonNegative, "0qh4k,I9"⟩,
    ⟨"iter", isNonNegativeInteger, "0qh2t,G9"⟩,
    ⟨"siter", isPositiveInteger, "0qh3P,Fv"⟩ ]

/-- The four pass-through fields copied without validation
(`src/lib/validate.js`, lines 103-115), in source order. -/
def passKeys : List String := ["prng", "seed", "state", "copy"]

/-- Copy one pass-through field when present:
`if (hasOwnProp(options, k)) { opts[k] = options[k]; }`. -/
def copyKey (k : String) (opts o : ObjMap) : ObjMap :=
  match getProp o k with
  | some v => setProp opts k v
  | none => opts

/-- The pass-through tail of `validate`: copy `prng`, `seed`, `state`,
`copy` when present, then `return null`. -/
def passThrough (opts o : ObjMap) : Option JsError × ObjMap :=
  (none, copyKey "copy" (copyKey "state" (copyKey "seed" (copyKey "prng" opts o) o) o) o)

/-- The checked prefix of `validate`: each block is
`if (hasOwnProp(options, key)) { opts[key] = options[key];
if (!pred(opts[key])) { return new TypeError(format(code, key, opts[key])); } }`,
run in the order of `checks`, then the pass-through tail. -/
def runChecks : List FieldCheck → ObjMap → ObjMap → Option JsError × ObjMap
  | [], opts, o => passThrough opts o
  | c :: rest, opts, o =>
      match getProp o c.key with
      | none => runChecks rest opts o
      | some v =>
          let opts2 := setProp opts c.key v
          if c.pred v then runChecks rest opts2 o
          else (some (JsError.typeError c.code (some c.key) v), opts2)

/-- `validate( opts, options )` from `src/lib/validate.js`: reject a
non-plain-object `options`, then run the six checks in order and the
pass-through tail. Returns the error (or `none`) together with the mutated
destination record. -/
def validate (opts : ObjMap) (options : JsVal) : Option JsError × ObjMap :=
  match options with
  | .plainObj o => runChecks checks opts o
  | v => (some (JsError.typeError "0qh2V,FD" none v), opts)

/-- Every checked field that is present satisfies its predicate. -/
def checksOk (cs : List FieldCheck) (o : ObjMap) : Bool :=
  cs.all fun c =>
    match getProp o c.key with
    | some v => c.pred v
    | none => true

/-- The first check in `cs` whose field is present and invalid, together
with the offending value. -/
def firstInvalidIn : List FieldCheck → ObjMap → Option (FieldCheck × JsVal)
  | [], _ => none
  | c :: rest, o =>
      match getProp o c.key with
      | some v => if c.pred v then firstInvalidIn rest o else some (c, v)
      | none => firstInvalidIn rest o

/-- The earliest invalid field of an options object, in the fixed source
order of `checks`. -/
def firstInvalid (o : ObjMap) : Option (FieldCheck × JsVal) :=
  firstInvalidIn checks o

/-- The keys of the checks up to and including the first check named `k`. -/
def keysThrough : List FieldCheck → String → List String
  | [], _ => []
  | c :: rest, k => if c.key = k then [c.key] else c.key :: keysThrough rest k

/-- All ten keys `validate` may write into the destination record. -/
def recognizedKeys : List String :=
  ["sep", "objectMode", "encoding", "highWaterMark", "iter", "siter",
   "prng", "seed", "state", "copy"]

/-- Modelled from the spec: the generator state buffers live in a heap; the
underlying `setState` implementation is not under `src/` (only the README
Notes describe it), so sharing is modelled by managers holding an index into
the heap of buffers. -/
structure PrngHeap where
  bufs : List (List Int)

/-- Modelled from the spec: a GeneratorStateManager holding a reference to
one state buffer in the heap. Two managers share state when they hold the
same index. -/
structure StateManager where
  ref : Nat

/-- Modelled from the spec: reading the `state` property dereferences the
buffer the manager currently points to. -/
def readState (h : PrngHeap) (m : StateManager) : List Int :=
  h.bufs.getD m.ref []

/-- Modelled from the spec: `setState( newBuf )` on a manager whose buffer is
shared. If `newBuf` has the same length as the current buffer, the contents
are copied element-wise into the existing shared buffer (an in-place heap
update visible to every holder of the same reference); if the length differs,
a new buffer is installed and only this manager is rebound to it (with
`copy = true` the installed buffer is a clone of `newBuf`, which is
indistinguishable from `newBuf` in this value-level model). -/
def setState (h : PrngHeap) (m : StateManager) (newBuf : List Int) :
    PrngHeap × StateManager :=
  if newBuf.length = (h.bufs.getD m.ref []).length then
    (⟨h.bufs.set m.ref newBuf⟩, m)
  else
    (⟨h.bufs ++ [newBuf]⟩, ⟨h.bufs.length⟩)

/-! ## Basic lemmas about property maps -/

theorem getProp_setProp_self (o : ObjMap) (k : String) (v : JsVal) :
    getProp (setProp o k v) k = some v := by
  induction o with
  | nil => simp [getProp, setProp]
  | cons hd t ih =>
      obtain ⟨k0, v0⟩ := hd
      by_cases hk : k0 = k <;> simp [getProp, setProp, hk, ih]

theorem getProp_setProp_ne (o : ObjMap) (k k1 : String) (v : JsVal)
    (hne : k1 ≠ k) : getProp (setProp o k v) k1 = getProp o k1 := by
  have hne2 : ¬ k = k1 := fun h => hne h.symm
  induction o with
  | nil => simp [getProp, setProp, hne2]
  | cons hd t ih =>
      obtain ⟨k0, v0⟩ := hd
      by_cases hk : k0 = k
      · subst hk
        simp [getProp, setProp, hne2]
      · simp [getProp, setProp, hk, ih]

theorem copyKey_getProp_ne (k k1 : String) (opts o : ObjMap) (hne : k1 ≠ k) :
    getProp (copyKey k opts o) k1 = getProp opts k1 := by
  unfold copyKey
  cases getProp o k with
  | none => rfl
  | some v => exact getProp_setProp_ne opts k k1 v hne

theorem copyKey_absent (k : String) (opts o : ObjMap)
    (h : hasOwnProp o k = false) : copyKey k opts o = opts := by
  unfold copyKey hasOwnProp at *
  cases hg : getProp o k with
  | none => rfl
  | some v => simp [hg] at h

theorem copyKey_present (k : String) (opts o : ObjMap) (v : JsVal)
    (h : getProp o k = some v) : getProp (copyKey k opts o) k = some v := by
  unfold copyKey
  simp [h, getProp_setProp_self]

theorem getProp_of_not_hasOwnProp (o : ObjMap) (k : String)
    (h : hasOwnProp o k = false) : getProp o k = none := by
  unfold hasOwnProp at h
  cases hg : getProp o k with
  | none => rfl
  | some v => simp [hg] at h

theorem copyKey_absent_getProp (k k2 : String) (opts o : ObjMap)
    (h : hasOwnProp o k = false) :
    getProp (copyKey k2 opts o) k = getProp opts k := by
  by_cases he : k = k2
  · subst he
    rw [copyKey_absent k opts o h]
  · exact copyKey_getProp_ne k2 k opts o he

/-! ## Lemmas about the pass-through tail -/

theorem passThrough_fst (opts o : ObjMap) : (passThrough opts o).1 = none := rfl

theorem passThrough_frame (opts o : ObjMap) (k : String) (h : k ∉ passKeys) :
    getProp (passThrough opts o).2 k = getProp opts k := by
  simp only [passKeys, List.mem_cons, List.not_mem_nil] at h
  push_neg at h
  obtain ⟨h1, h2, h3, h4⟩ := h
  unfold passThrough
  rw [copyKey_getProp_ne _ _ _ _ h4.1, copyKey_getProp_ne _ _ _ _ h3,
    copyKey_getProp_ne _ _ _ _ h2, copyKey_getProp_ne _ _ _ _ h1]

theorem passThrough_absent (opts o : ObjMap) (k : String)
    (h : hasOwnProp o k = false) :
    getProp (passThrough opts o).2 k = getProp opts k := by
  unfold passThrough
  rw [copyKey_absent_getProp _ _ _ _ h, copyKey_absent_getProp _ _ _ _ h,
    copyKey_absent_getProp _ _ _ _ h, copyKey_absent_getProp _ _ _ _ h]

theorem passThrough_present (opts o : ObjMap) (k : String) (v : JsVal)
    (hmem : k ∈ passKeys) (h : getProp o k = some v) :
    getProp (passThrough opts o).2 k = some v := by
  unfold passThrough
  simp only [passKeys, List.mem_cons, List.not_mem_nil, or_false] at hmem
  rcases hmem with h1 | h2 | h3 | h4
  · subst h1
    rw [copyKey_getProp_ne _ _ _ _ (by decide), copyKey_getProp_ne _ _ _ _ (by decide),
      copyKey_getProp_ne _ _ _ _ (by decide)]
    exact copyKey_present _ _ _ _ h
  · subst h2
    rw [copyKey_getProp_ne _ _ _ _ (by decide), copyKey_getProp_ne _ _ _ _ (by decide)]
    exact copyKey_present _ _ _ _ h
  · subst h3
    rw [copyKey_getProp_ne _ _ _ _ (by decide)]
    exact copyKey_present _ _ _ _ h
  · subst h4
    exact copyKey_present _ _ _ _ h

theorem passThrough_all_absent (opts o : ObjMap)
    (h : ∀ k ∈ passKeys, hasOwnProp o k = false) :
    passThrough opts o = (none, opts) := by
  unfold passThrough
  rw [copyKey_absent _ _ _ (h "prng" (by simp [passKeys])),
    copyKey_absent _ _ _ (h "seed" (by simp [passKeys])),
    copyKey_absent _ _ _ (h "state" (by simp [passKeys])),
    copyKey_absent _ _ _ (h "copy" (by simp [passKeys]))]

/-! ## Lemmas about the checked prefix -/

theorem runChecks_fst_none_iff (cs : List FieldCheck) (o : ObjMap) :
    ∀ opts, ((runChecks cs opts o).1 = none ↔ checksOk cs o = true) := by
  induction cs with
  | nil => intro opts; simp [runChecks, checksOk, passThrough]
  | cons c rest ih =>
      intro opts
      cases hg : getProp o c.key with
      | none => simp [runChecks, checksOk, hg, ih opts]
      | some v =>
          by_cases hp : c.pred v
          · simp [runChecks, checksOk, hg, hp, ih (setProp opts c.key v)]
          · simp [runChecks, checksOk, hg, hp]

theorem runChecks_frame (cs : List FieldCheck) (o : ObjMap) (k : String)
    (hc : ∀ c ∈ cs, k ≠ c.key) (hpk : k ∉ passKeys) :
    ∀ opts, getProp (runChecks cs opts o).2 k = getProp opts k := by
  induction cs with
  | nil => intro opts; exact passThrough_frame opts o k hpk
  | cons c rest ih =>
      intro opts
      have hkc : k ≠ c.key := hc c (by simp)
      have hrest : ∀ c2 ∈ rest, k ≠ c2.key := fun c2 hm => hc c2 (by simp [hm])
      cases hg : getProp o c.key with
      | none => simpa [runChecks, hg] using ih hrest opts
      | some v =>
          by_cases hp : c.pred v
          · simp only [runChecks, hg]
            rw [if_pos hp]
            rw [ih hrest (setProp opts c.key v)]
            exact getProp_setProp_ne opts c.key k v hkc
          · simp only [runChecks, hg]
            rw [if_neg hp]
            exact getProp_setProp_ne opts c.key k v hkc

theorem runChecks_absent (cs : List FieldCheck) (o : ObjMap) (k : String)
    (h : hasOwnProp o k = false) :
    ∀ opts, getProp (runChecks cs opts o).2 k = getProp opts k := by
  induction cs with
  | nil => intro opts; exact passThrough_absent opts o k h
  | cons c rest ih =>
      intro opts
      cases hg : getProp o c.key with
      | none => simpa [runChecks, hg] using ih opts
      | some v =>
          have hkc : k ≠ c.key := by
            intro he
            subst he
            rw [getProp_of_not_hasOwnProp o c.key h] at hg
            cases hg
          by_cases hp : c.pred v
          · simp only [runChecks, hg]
            rw [if_pos hp, ih (setProp opts c.key v)]
            exact getProp_setProp_ne opts c.key k v hkc
          · simp only [runChecks, hg]
            rw [if_neg hp]
            exact getProp_setProp_ne opts c.key k v hkc

theorem runChecks_all_absent (cs : List FieldCheck) (o : ObjMap)
    (h : ∀ c ∈ cs, hasOwnProp o c.key = false) :
    ∀ opts, runChecks cs opts o = passThrough opts o := by
  induction cs with
  | nil => intro opts; rfl
  | cons c rest ih =>
      intro opts
      have hg : getProp o c.key = none :=
        getProp_of_not_hasOwnProp o c.key (h c (by simp))
      have hrest : ∀ c2 ∈ rest, hasOwnProp o c2.key = false :=
        fun c2 hm => h c2 (by simp [hm])
      simpa [runChecks, hg] using ih hrest opts

theorem firstInvalidIn_spec (cs : List FieldCheck) (o : ObjMap)
    (c : FieldCheck) (v : JsVal) (hf : firstInvalidIn cs o = some (c, v)) :
    c ∈ cs ∧ getProp o c.key = some v ∧ c.pred v = false := by
  induction cs with
  | nil => cases hf
  | cons c1 rest ih =>
      cases hg : getProp o c1.key with
      | none =>
          have hf2 : firstInvalidIn rest o = some (c, v) := by
            simpa [firstInvalidIn, hg] using hf
          obtain ⟨hm, hgp, hp⟩ := ih hf2
          exact ⟨by simp [hm], hgp, hp⟩
      | some v1 =>
          by_cases hp : c1.pred v1
          · have hf2 : firstInvalidIn rest o = some (c, v) := by
              simpa [firstInvalidIn, hg, hp] using hf
            obtain ⟨hm, hgp, hpf⟩ := ih hf2
            exact ⟨by simp [hm], hgp, hpf⟩
          · have : c1 = c ∧ v1 = v := by
              simpa [firstInvalidIn, hg, hp] using hf
            obtain ⟨hc, hv⟩ := this
            subst hc; subst hv
            exact ⟨by simp, hg, by simp [hp]⟩

theorem firstInvalidIn_none_iff (cs : List FieldCheck) (o : ObjMap) :
    firstInvalidIn cs o = none ↔ checksOk cs o = true := by
  induction cs with
  | nil => simp [firstInvalidIn, checksOk]
  | cons c rest ih =>
      cases hg : getProp o c.key with
      | none => simp [firstInvalidIn, checksOk, hg, ih]
      | some v =>
          by_cases hp : c.pred v <;>
            simp [firstInvalidIn, checksOk, hg, hp, ih]

theorem runChecks_firstInvalid (cs : List FieldCheck) (o : ObjMap)
    (c : FieldCheck) (v : JsVal)
    (hnd : (cs.map FieldCheck.key).Nodup)
    (hf : firstInvalidIn cs o = some (c, v)) :
    ∀ opts,
      (runChecks cs opts o).1 = some (JsError.typeError c.code (some c.key) v)
      ∧ getProp (runChecks cs opts o).2 c.key = some v
      ∧ ∀ k, k ∉ keysThrough cs c.key →
          getProp (runChecks cs opts o).2 k = getProp opts k := by
  induction cs with
  | nil => cases hf
  | cons c1 rest ih =>
      intro opts
      rw [List.map_cons, List.nodup_cons] at hnd
      obtain ⟨hnotin, hndrest⟩ := hnd
      cases hg : getProp o c1.key with
      | none =>
          have hf2 : firstInvalidIn rest o = some (c, v) := by
            simpa [firstInvalidIn, hg] using hf
          have hmem := (firstInvalidIn_spec rest o c v hf2).1
          have hkne : ¬ c1.key = c.key := by
            intro he
            exact hnotin (he ▸ List.mem_map_of_mem FieldCheck.key hmem)
          obtain ⟨ih1, ih2, ih3⟩ := ih hndrest hf2 opts
          refine ⟨by simpa [runChecks, hg] using ih1,
            by simpa [runChecks, hg] using ih2, ?_⟩
          intro k hk
          rw [keysThrough, if_neg hkne] at hk
          simp only [List.mem_cons] at hk
          push_neg at hk
          simpa [runChecks, hg] using ih3 k hk.2
      | some v1 =>
          by_cases hp : c1.pred v1
          · have hf2 : firstInvalidIn rest o = some (c, v) := by
              simpa [firstInvalidIn, hg, hp] using hf
            have hmem := (firstInvalidIn_spec rest o c v hf2).1
            have hkne : ¬ c1.key = c.key := by
              intro he
              exact hnotin (he ▸ List.mem_map_of_mem FieldCheck.key hmem)
            obtain ⟨ih1, ih2, ih3⟩ := ih hndrest hf2 (setProp opts c1.key v1)
            have hred : runChecks (c1 :: rest) opts o
                = runChecks rest (setProp opts c1.key v1) o := by
              simp [runChecks, hg, hp]
            refine ⟨by rw [hred]; exact ih1, by rw [hred]; exact ih2, ?_⟩
            intro k hk
            rw [keysThrough, if_neg hkne] at hk
            simp only [List.mem_cons] at hk
            push_neg at hk
            rw [hred, ih3 k hk.2]
            exact getProp_setProp_ne opts c1.key k v1 hk.1
          · have hcv : c1 = c ∧ v1 = v := by
              simpa [firstInvalidIn, hg, hp] using hf
            obtain ⟨hc, hv⟩ := hcv
            subst hc; subst hv
            have hred : runChecks (c1 :: rest) opts o
                = (some (JsError.typeError c1.code (some c1.key) v1),
                   setProp opts c1.key v1) := by
              simp [runChecks, hg, hp]
            refine ⟨by rw [hred], by rw [hred]; exact getProp_setProp_self opts c1.key v1, ?_⟩
            intro k hk
            rw [keysThrough, if_pos rfl] at hk
            simp only [List.mem_cons, List.not_mem_nil, or_false] at hk
            rw [hred]
            exact getProp_setProp_ne opts c1.key k v1 hk

theorem runChecks_passKey_present (cs : List FieldCheck) (o : ObjMap)
    (k : String) (v : JsVal) (hmem : k ∈ passKeys) (hgp : getProp o k = some v)
    (hok : checksOk cs o = true) :
    ∀ opts, getProp (runChecks cs opts o).2 k = some v := by
  induction cs with
  | nil => intro opts; exact passThrough_present opts o k v hmem hgp
  | cons c rest ih =>
      intro opts
      rw [checksOk, List.all_cons, Bool.and_eq_true] at hok
      obtain ⟨hhead, htail⟩ := hok
      cases hg : getProp o c.key with
      | none => simpa [runChecks, hg] using ih htail opts
      | some v1 =>
          simp only [hg] at hhead
          simp only [runChecks, hg]
          rw [if_pos hhead]
          exact ih htail _

/-! ## The claims -/

/-- Claim C1: for every destination record and plain-object options mapping,
validate returns null exactly when every recognized field that is present
satisfies its type condition (in the sense of `checks`: sep text, objectMode
boolean, encoding text or null, highWaterMark non-negative number, iter
non-negative integer, siter positive integer); in every other case the
result is a type-validation `TypeError`. -/
theorem validate_none_iff_checksOk (opts o : ObjMap) :
    ((validate opts (JsVal.plainObj o)).1 = none ↔ checksOk checks o = true)
    ∧ ((validate opts (JsVal.plainObj o)).1 = none
        ∨ ∃ cd f v, (validate opts (JsVal.plainObj o)).1
            = some (JsError.typeError cd f v)) := by
  refine ⟨runChecks_fst_none_iff checks o opts, ?_⟩
  cases he : (validate opts (JsVal.plainObj o)).1 with
  | none => exact Or.inl rfl
  | some e =>
      cases e with
      | typeError cd f v => exact Or.inr ⟨cd, f, v, rfl⟩

/-- Claim C1 instantiated at a concrete valid and a concrete invalid
options object. -/
theorem validate_none_iff_checksOk_witness :
    (validate [] (JsVal.plainObj [("objectMode", JsVal.bool true)])).1 = none :=
  (validate_none_iff_checksOk [] [("objectMode", JsVal.bool true)]).1.mpr rfl

/-- Claim C2: whenever a recognized field is invalid (in particular whenever
two or more are), validate returns the error of the earliest invalid field
in the fixed order sep, objectMode, encoding, highWaterMark, iter, siter,
and no key beyond the checked prefix ending at that field is written into
the destination record: validation short-circuits at the first failure. -/
theorem validate_first_failure (opts o : ObjMap) (c : FieldCheck) (v : JsVal)
    (hf : firstInvalid o = some (c, v)) :
    (validate opts (JsVal.plainObj o)).1
      = some (JsError.typeError c.code (some c.key) v)
    ∧ ∀ k, k ∉ keysThrough checks c.key →
        getProp ((validate opts (JsVal.plainObj o)).2) k = getProp opts k := by
  have hnd : (checks.map FieldCheck.key).Nodup := by decide
  obtain ⟨h1, _, h3⟩ := runChecks_firstInvalid checks o c v hnd hf opts
  exact ⟨h1, h3⟩

/-- Claim C2 at a concrete options object with two invalid fields
(objectMode and iter): the earlier one, objectMode, names the error. -/
theorem validate_first_failure_witness :
    (validate [] (JsVal.plainObj
        [("objectMode", JsVal.num 1), ("iter", JsVal.num (-1))])).1
      = some (JsError.typeError "0qh2o,GE" (some "objectMode") (JsVal.num 1)) :=
  (validate_first_failure [] [("objectMode", JsVal.num 1), ("iter", JsVal.num (-1))]
    ⟨"objectMode", isBoolean, "0qh2o,GE"⟩ (JsVal.num 1) rfl).1

/-- Claim C3 counterexample: on `{ sep: 1 }` validate returns an error, yet
the initially empty destination record has received the offending value
(the source assigns `opts.sep = options.sep` before checking it). -/
theorem validate_error_destination_cex :
    ((validate [] (JsVal.plainObj [("sep", JsVal.num 1)])).1).isSome = true
    ∧ getProp ((validate [] (JsVal.plainObj [("sep", JsVal.num 1)])).2) "sep"
        = some (JsVal.num 1) :=
  ⟨rfl, rfl⟩

/-- Claim C3 (amended): when validate returns the error of the earliest
invalid field, the destination record has received that offending value
(each field is written before it is checked), while every key beyond the
checked prefix ending at the failing field is left untouched. -/
theorem validate_error_writes_offending (opts o : ObjMap)
    (c : FieldCheck) (v : JsVal) (hf : firstInvalid o = some (c, v)) :
    getProp ((validate opts (JsVal.plainObj o)).2) c.key = some v
    ∧ ∀ k, k ∉ keysThrough checks c.key →
        getProp ((validate opts (JsVal.plainObj o)).2) k = getProp opts k := by
  have hnd : (checks.map FieldCheck.key).Nodup := by decide
  obtain ⟨_, h2, h3⟩ := runChecks_firstInvalid checks o c v hnd hf opts
  exact ⟨h2, h3⟩

/-- Claim C3 (amended) at a concrete input: the invalid encoding value is
written into the destination record. -/
theorem validate_error_writes_offending_witness :
    getProp ((validate [] (JsVal.plainObj [("encoding", JsVal.num 2)])).2)
        "encoding" = some (JsVal.num 2) :=
  (validate_error_writes_offending [] [("encoding", JsVal.num 2)]
    ⟨"encoding", fun v => isString v || isNull v, "0qh7n,Ny"⟩ (JsVal.num 2) rfl).1

/-- Claim C4: for a shared state buffer, setState with a same-length buffer
updates the shared buffer in place, so a co-holder of the reference observes
the new contents and the manager keeps its reference; setState with a
different-length buffer rebinds only this manager, the co-holder still reads
the old buffer, and the rebound manager reads the new one. -/
theorem setState_shared_semantics (h : PrngHeap) (m1 m2 : StateManager)
    (hs : m1.ref = m2.ref) (hlt : m1.ref < h.bufs.length) (nb : List Int) :
    (nb.length = (readState h m1).length →
       readState (setState h m1 nb).1 m2 = nb ∧ (setState h m1 nb).2 = m1)
    ∧ (nb.length ≠ (readState h m1).length →
       readState (setState h m1 nb).1 m2 = readState h m2
       ∧ readState (setState h m1 nb).1 (setState h m1 nb).2 = nb
       ∧ (setState h m1 nb).2.ref ≠ m2.ref) := by
  constructor
  · intro hlen
    rw [readState] at hlen
    rw [setState, if_pos hlen]
    refine ⟨?_, rfl⟩
    rw [readState]
    simp only [← hs]
    rw [List.getD_eq_getElem?_getD, List.getElem?_set_self hlt, Option.getD_some]
  · intro hlen
    rw [readState] at hlen
    rw [setState, if_neg hlen]
    refine ⟨?_, ?_, ?_⟩
    · rw [readState, readState]
      simp only
      rw [List.getD_eq_getElem?_getD, List.getD_eq_getElem?_getD,
        List.getElem?_append_left (hs ▸ hlt)]
    · rw [readState]
      simp only
      rw [List.getD_eq_getElem?_getD, List.getElem?_concat_length, Option.getD_some]
    · show h.bufs.length ≠ m2.ref
      exact Nat.ne_of_gt (hs ▸ hlt)

/-- Claim C4 at a concrete shared heap: a same-length replacement is seen
through the co-holder, a different-length replacement is not. -/
theorem setState_shared_semantics_witness :
    readState (setState ⟨[[1, 2]]⟩ ⟨0⟩ [3, 4]).1 ⟨0⟩ = [3, 4]
    ∧ readState (setState ⟨[[1, 2]]⟩ ⟨0⟩ [5]).1 ⟨0⟩ = readState ⟨[[1, 2]]⟩ ⟨0⟩ :=
  ⟨((setState_shared_semantics ⟨[[1, 2]]⟩ ⟨0⟩ ⟨0⟩ rfl (by decide) [3, 4]).1
      (by decide)).1,
   ((setState_shared_semantics ⟨[[1, 2]]⟩ ⟨0⟩ ⟨0⟩ rfl (by decide) [5]).2
      (by decide)).1⟩

/-- Claim C5 counterexample: `prng` is an own property of
`{ sep: 1, prng: f }`, yet validate leaves it uncopied, because validation
already failed on `sep` before reaching the pass-through block. -/
theorem validate_passThrough_cex :
    hasOwnProp [("sep", JsVal.num 1), ("prng", JsVal.fn 0)] "prng" = true
    ∧ getProp ((validate [] (JsVal.plainObj
        [("sep", JsVal.num 1), ("prng", JsVal.fn 0)])).2) "prng" = none :=
  ⟨rfl, rfl⟩

/-- Claim C5 (amended): when every recognized check passes, validate returns
null and each of prng, seed, state, copy that is an own property of options
is copied verbatim into the destination record; moreover no validation error
ever names one of these four fields, whatever their values. -/
theorem validate_passThrough_amended (opts o : ObjMap) :
    (checksOk checks o = true →
       (validate opts (JsVal.plainObj o)).1 = none
       ∧ ∀ k ∈ passKeys, ∀ v, getProp o k = some v →
           getProp ((validate opts (JsVal.plainObj o)).2) k = some v)
    ∧ ∀ cd f v, (validate opts (JsVal.plainObj o)).1
          = some (JsError.typeError cd f v) → ∀ k ∈ passKeys, f ≠ some k := by
  constructor
  · intro hok
    refine ⟨(runChecks_fst_none_iff checks o opts).mpr hok, ?_⟩
    intro k hk v hgp
    exact runChecks_passKey_present checks o k v hk hgp hok opts
  · intro cd f v he k hk
    cases hfi : firstInvalid o with
    | none =>
        have hok : checksOk checks o = true :=
          (firstInvalidIn_none_iff checks o).mp hfi
        have h0 : (validate opts (JsVal.plainObj o)).1 = none :=
          (runChecks_fst_none_iff checks o opts).mpr hok
        rw [h0] at he
        cases he
    | some p =>
        obtain ⟨c, v0⟩ := p
        have hnd : (checks.map FieldCheck.key).Nodup := by decide
        have h1 := (runChecks_firstInvalid checks o c v0 hnd hfi opts).1
        have heq : JsError.typeError c.code (some c.key) v0
            = JsError.typeError cd f v :=
          Option.some.inj (h1.symm.trans he)
        have hf2 : some c.key = f := by cases heq; rfl
        have hmem := (firstInvalidIn_spec checks o c v0 hfi).1
        intro hcontra
        rw [← hf2] at hcontra
        have hck : c.key = k := Option.some.inj hcontra
        have hin : c.key ∈ checks.map FieldCheck.key :=
          List.mem_map_of_mem FieldCheck.key hmem
        rw [hck] at hin
        have hdisj : ∀ k1 ∈ checks.map FieldCheck.key, k1 ∉ passKeys := by decide
        exact hdisj k hin hk

/-- Claim C5 (amended) at a concrete input: a present `copy` field is copied
verbatim when validation succeeds. -/
theorem validate_passThrough_amended_witness :
    getProp ((validate [] (JsVal.plainObj [("copy", JsVal.bool false)])).2)
        "copy" = some (JsVal.bool false) :=
  ((validate_passThrough_amended [] [("copy", JsVal.bool false)]).1 rfl).2
    "copy" (by simp [passKeys]) (JsVal.bool false) rfl

/-- Claim C6: validate writes only the ten recognized keys (any other key of
the destination keeps its prior binding), a key is written only when it is
an own property of options (absent keys keep their prior binding, with no
defaulting), and an options object none of whose own properties is
recognized produces null and an unchanged destination record. -/
theorem validate_frame (opts o : ObjMap) :
    (∀ k, k ∉ recognizedKeys →
        getProp ((validate opts (JsVal.plainObj o)).2) k = getProp opts k)
    ∧ (∀ k, hasOwnProp o k = false →
        getProp ((validate opts (JsVal.plainObj o)).2) k = getProp opts k)
    ∧ ((∀ k ∈ recognizedKeys, hasOwnProp o k = false) →
        validate opts (JsVal.plainObj o) = (none, opts)) := by
  have hsub1 : ∀ c ∈ checks, c.key ∈ recognizedKeys := by decide
  have hsub2 : ∀ k ∈ passKeys, k ∈ recognizedKeys := by decide
  refine ⟨?_, ?_, ?_⟩
  · intro k hk
    refine runChecks_frame checks o k ?_ ?_ opts
    · intro c hc he
      exact hk (he ▸ hsub1 c hc)
    · intro hp
      exact hk (hsub2 k hp)
  · intro k h
    exact runChecks_absent checks o k h opts
  · intro h
    have h1 : ∀ c ∈ checks, hasOwnProp o c.key = false :=
      fun c hc => h c.key (hsub1 c hc)
    have h2 : ∀ k ∈ passKeys, hasOwnProp o k = false :=
      fun k hp => h k (hsub2 k hp)
    show runChecks checks opts o = (none, opts)
    rw [runChecks_all_absent checks o h1 opts]
    exact passThrough_all_absent opts o h2

/-- Claim C6 at a concrete input: an options object holding only an
unrecognized key is silently ignored. -/
theorem validate_frame_witness :
    validate [] (JsVal.plainObj [("foo", JsVal.num 1)]) = (none, []) :=
  (validate_frame [] [("foo", JsVal.num 1)]).2.2 (by decide)

/-- Claim C7: a present non-text sep makes validate fail with a TypeError
naming the field sep and carrying the received value. -/
theorem validate_sep_typeError (opts o : ObjMap) (v : JsVal)
    (hp : getProp o "sep" = some v) (hs : isString v = false) :
    (validate opts (JsVal.plainObj o)).1
      = some (JsError.typeError "0qh2W,Gh" (some "sep") v) := by
  show (runChecks checks opts o).1 = _
  rw [checks]
  simp [runChecks, hp, hs]

/-- Claim C7 at a concrete input. -/
theorem validate_sep_typeError_witness :
    (validate [] (JsVal.plainObj [("sep", JsVal.bool true)])).1
      = some (JsError.typeError "0qh2W,Gh" (some "sep") (JsVal.bool true)) :=
  validate_sep_typeError [] [("sep", JsVal.bool true)] (JsVal.bool true) rfl rfl

/-- Claim C8: with iter the only supplied option, validate accepts exactly
the non-negative integers, rejecting anything else with a TypeError naming
iter; in particular an iter of 0 is accepted. -/
theorem validate_iter_nonNegInt (opts : ObjMap) (v : JsVal) :
    ((validate opts (JsVal.plainObj [("iter", v)])).1
      = if isNonNegativeInteger v then none
        else some (JsError.typeError "0qh2t,G9" (some "iter") v))
    ∧ (validate opts (JsVal.plainObj [("iter", JsVal.num 0)])).1 = none := by
  constructor
  · by_cases hni : isNonNegativeInteger v <;>
      simp [validate, runChecks, checks, getProp, passThrough, hni]
  · have h0 : isNonNegativeInteger (JsVal.num 0) = true := by decide
    simp [validate, runChecks, checks, getProp, passThrough, h0]

/-- Claim C8 instantiated: iter of 0 is accepted. -/
theorem validate_iter_nonNegInt_witness :
    (validate [] (JsVal.plainObj [("iter", JsVal.num 0)])).1 = none :=
  (validate_iter_nonNegInt [] (JsVal.num 0)).2

/-- Claim C9: with encoding the only supplied option, validate accepts
exactly the strings and the explicit null, rejecting every other value with
a TypeError naming encoding. -/
theorem validate_encoding_stringOrNull (opts : ObjMap) (v : JsVal) :
    (validate opts (JsVal.plainObj [("encoding", v)])).1
      = if isString v || isNull v then none
        else some (JsError.typeError "0qh7n,Ny" (some "encoding") v) := by
  by_cases he : isString v || isNull v <;>
    simp [validate, runChecks, checks, getProp, passThrough, he]

/-- Claim C9 instantiated: a null encoding is accepted. -/
theorem validate_encoding_stringOrNull_witness :
    (validate [] (JsVal.plainObj [("encoding", JsVal.null)])).1 = none := by
  have := validate_encoding_stringOrNull [] JsVal.null
  simpa [isNull] using this

/-- Claim C10: a non-plain-object options argument (null, an array, a
number, a string, ...) is rejected immediately with a TypeError carrying
the received value, and the destination record is returned unmodified. -/
theorem validate_nonObject (opts : ObjMap) (v : JsVal)
    (h : isPlainObject v = false) :
    validate opts v = (some (JsError.typeError "0qh2V,FD" none v), opts) := by
  cases v <;> first | rfl | simp [isPlainObject] at h

/-- Claim C10 at a concrete input. -/
theorem validate_nonObject_witness :
    validate [] JsVal.null
      = (some (JsError.typeError "0qh2V,FD" none JsVal.null), []) :=
  validate_nonObject [] JsVal.null rfl

end RandomStreamsArcsine
